import Mathlib

/-!
Verification of the MCU data-visualization dashboard.

Shallow embedding of the layout / data-loading logic of the repository's
chart components, with theorems settling the specification's claims about
them.  Pixel coordinates and JavaScript `number` values are modelled as
rationals (`ℚ`); a JavaScript value that may be `NaN` is modelled as
`Option ℚ` (`none` = `NaN`); timestamps (`Date.getTime()`) are modelled as
integers (`ℤ`, milliseconds).  JavaScript's stable `Array.prototype.sort`
is modelled with `List.mergeSort`, which is also stable.
-/

namespace Mcu

/-! ### Lane allocator (`assignLanes`, src/src/components/McuConnections.tsx) -/

/-- The scan `while (lane < laneRightEnds.length && d.leftX <= laneRightEnds[lane] + 8) lane++`:
first index whose right-end satisfies `leftX > end + 8`, or the list length if none does. -/
def findLane (l : ℚ) : List ℚ → ℕ
  | [] => 0
  | e :: rest => if l ≤ e + 8 then findLane l rest + 1 else 0

/-- Step `if (lane === laneRightEnds.length) laneRightEnds.push(d.rightX) else laneRightEnds[lane] = d.rightX`. -/
def updateEnds (ends : List ℚ) (i : ℕ) (r : ℚ) : List ℚ :=
  if i = ends.length then ends ++ [r] else ends.set i r

/-- The body of `assignLanes`: a single left-to-right pass over the interval
list threading the mutable `laneRightEnds` array, pairing each interval with
its assigned lane. -/
def assignGo (left right : α → ℚ) (ends : List ℚ) : List α → List (α × ℕ)
  | [] => []
  | d :: rest =>
    let lane := findLane (left d) ends
    (d, lane) :: assignGo left right (updateEnds ends lane (right d)) rest

/-- Function `assignLanes` from `McuConnections.tsx` (lines 387-396), generalized over the
record type carrying the `leftX`/`rightX` pixel span. -/
def assignLanes (left right : α → ℚ) (list : List α) : List (α × ℕ) :=
  assignGo left right [] list

theorem findLane_le_length (l : ℚ) : ∀ ends : List ℚ, findLane l ends ≤ ends.length := by
  intro ends
  induction ends with
  | nil => simp [findLane]
  | cons e rest ih =>
    simp only [findLane]
    split
    · simpa using ih
    · simp

theorem findLane_lt (l : ℚ) : ∀ ends : List ℚ, findLane l ends < ends.length →
    (ends.getD (findLane l ends) 0) + 8 < l := by
  intro ends
  induction ends with
  | nil => intro h; simp [findLane] at h
  | cons e rest ih =>
    intro h
    by_cases hc : l ≤ e + 8
    · rw [findLane, if_pos hc] at h ⊢
      rw [List.length_cons] at h
      simpa using ih (by omega)
    · rw [findLane, if_neg hc]
      simpa using lt_of_not_le hc

theorem length_le_updateEnds (ends : List ℚ) (i : ℕ) (r : ℚ) :
    ends.length ≤ (updateEnds ends i r).length := by
  unfold updateEnds
  split <;> simp

theorem updateEnds_lt_length (ends : List ℚ) (i : ℕ) (r : ℚ) (h : i ≤ ends.length) :
    i < (updateEnds ends i r).length := by
  unfold updateEnds
  split <;> simp <;> omega

theorem updateEnds_getD_self (ends : List ℚ) (i : ℕ) (r : ℚ) (h : i ≤ ends.length) :
    (updateEnds ends i r).getD i 0 = r := by
  unfold updateEnds
  split
  · subst ‹i = ends.length›
    simp [List.getD_eq_getElem?_getD, List.getElem?_concat_length]
  · have hi : i < ends.length := lt_of_le_of_ne h ‹¬ i = ends.length›
    simp [List.getD_eq_getElem?_getD, List.getElem?_set_self hi]

theorem updateEnds_getD_mono (ends : List ℚ) (i : ℕ) (r : ℚ)
    (hr : i < ends.length → ends.getD i 0 ≤ r)
    (k : ℕ) (hk : k < ends.length) :
    ends.getD k 0 ≤ (updateEnds ends i r).getD k 0 := by
  unfold updateEnds
  split
  · simp [List.getD_eq_getElem?_getD, List.getElem?_append_left hk]
  · by_cases hki : k = i
    · subst hki
      simp only [List.getD_eq_getElem?_getD, List.getElem?_set_self hk,
        List.getElem?_eq_getElem hk, Option.getD_some]
      simpa [List.getD_eq_getElem?_getD, List.getElem?_eq_getElem hk] using hr hk
    · simp [List.getD_eq_getElem?_getD, List.getElem?_set_ne (fun h => hki h.symm)]

theorem assignGo_getD_lt (left right : α → ℚ) :
    ∀ (list : List α) (ends : List ℚ), (∀ d ∈ list, left d ≤ right d) →
      ∀ p ∈ assignGo left right ends list, p.2 < ends.length →
        ends.getD p.2 0 + 8 < left p.1 := by
  intro list
  induction list with
  | nil => intro ends _ p hp; simp [assignGo] at hp
  | cons d rest ih =>
    intro ends hlr p hp hk
    simp only [assignGo, List.mem_cons] at hp
    rcases hp with hp | hp
    · subst hp
      exact findLane_lt (left d) ends hk
    · -- `p` was assigned later, over the updated right-ends array
      have hiLe : findLane (left d) ends ≤ ends.length := findLane_le_length _ _
      have hmono : ends.getD p.2 0 ≤
          (updateEnds ends (findLane (left d) ends) (right d)).getD p.2 0 := by
        apply updateEnds_getD_mono
        · intro h
          have h8 := findLane_lt (left d) ends h
          have := hlr d (by simp)
          linarith
        · exact hk
      have := ih (updateEnds ends (findLane (left d) ends) (right d))
        (fun e he => hlr e (by simp [he])) p hp
        (lt_of_lt_of_le hk (length_le_updateEnds _ _ _))
      linarith

theorem assignGo_pairwise (left right : α → ℚ) :
    ∀ (list : List α) (ends : List ℚ), (∀ d ∈ list, left d ≤ right d) →
      List.Pairwise (fun p q => p.2 = q.2 → right p.1 + 8 < left q.1)
        (assignGo left right ends list) := by
  intro list
  induction list with
  | nil => intro ends _; simp [assignGo]
  | cons d rest ih =>
    intro ends hlr
    simp only [assignGo, List.pairwise_cons]
    constructor
    · intro q hq hlane
      have hiLe : findLane (left d) ends ≤ ends.length := findLane_le_length _ _
      have hlt : findLane (left d) ends <
          (updateEnds ends (findLane (left d) ends) (right d)).length :=
        updateEnds_lt_length ends _ (right d) hiLe
      have hget : (updateEnds ends (findLane (left d) ends) (right d)).getD
          (findLane (left d) ends) 0 = right d :=
        updateEnds_getD_self ends _ (right d) hiLe
      have := assignGo_getD_lt left right rest
        (updateEnds ends (findLane (left d) ends) (right d))
        (fun e he => hlr e (by simp [he])) q hq (by rw [← hlane]; exact hlt)
      rw [← hlane, hget] at this
      exact this
    · exact ih _ (fun e he => hlr e (by simp [he]))

/-- A resolved interval on one side of the timeline: the pixel span of a
connection arc (`leftX = min(x1,x2)`, `rightX = max(x1,x2)`). -/
structure Ivl where
  leftX : ℚ
  rightX : ℚ
deriving DecidableEq

/-- C1. Lane-assignment invariant: two intervals assigned the same lane have
pixel spans that, expanded by the configured minimum 8px gap, do not
overlap: the later-placed interval starts strictly to the right of the
earlier one's right edge plus the gap. -/
theorem assignLanes_same_lane_disjoint (list : List Ivl)
    (h : ∀ d ∈ list, d.leftX ≤ d.rightX) :
    List.Pairwise (fun p q => p.2 = q.2 → p.1.rightX + 8 < q.1.leftX)
      (assignLanes Ivl.leftX Ivl.rightX list) :=
  assignGo_pairwise Ivl.leftX Ivl.rightX list [] h

theorem assignLanes_same_lane_disjoint_witness :
    (∀ d ∈ [Ivl.mk 0 30, Ivl.mk 5 12, Ivl.mk 50 60], d.leftX ≤ d.rightX) ∧
      List.Pairwise (fun p q => p.2 = q.2 → p.1.rightX + 8 < q.1.leftX)
        (assignLanes Ivl.leftX Ivl.rightX [Ivl.mk 0 30, Ivl.mk 5 12, Ivl.mk 50 60]) :=
  ⟨by decide, assignLanes_same_lane_disjoint [Ivl.mk 0 30, Ivl.mk 5 12, Ivl.mk 50 60] (by decide)⟩

/-! ### The allocator algorithm as worded by the spec (for refinement comparison) -/

/-- The spec's wording of the first-fit step, with a NON-strict comparison:
"assign the interval to the first lane whose right-edge is ≤ `interval.start − gap`;
if none exists, open a new lane (append a lane with right-edge = this interval's
start). Update that lane's right-edge to `interval.end`." -/
def specGoLe (left right : α → ℚ) (ends : List ℚ) : List α → List (α × ℕ)
  | [] => []
  | d :: rest =>
    match ends.findIdx? (fun e => decide (e ≤ left d - 8)) with
    | some i => (d, i) :: specGoLe left right (ends.set i (right d)) rest
    | none =>
      (d, ends.length) ::
        specGoLe left right ((ends ++ [left d]).set ends.length (right d)) rest

/-- The claim's allocator, non-strict comparison (`right-edge ≤ start − gap`). -/
def specAssignLanesLe (left right : α → ℚ) (list : List α) : List (α × ℕ) :=
  specGoLe left right [] list

/-- The first-fit step amended to the STRICT comparison the code performs:
assign the first lane whose right-edge is strictly below `interval.start − gap`. -/
def specGoLt (left right : α → ℚ) (ends : List ℚ) : List α → List (α × ℕ)
  | [] => []
  | d :: rest =>
    match ends.findIdx? (fun e => decide (e < left d - 8)) with
    | some i => (d, i) :: specGoLt left right (ends.set i (right d)) rest
    | none =>
      (d, ends.length) ::
        specGoLt left right ((ends ++ [left d]).set ends.length (right d)) rest

/-- The amended allocator: strict comparison (`right-edge < start − gap`). -/
def specAssignLanesLt (left right : α → ℚ) (list : List α) : List (α × ℕ) :=
  specGoLt left right [] list

theorem findIdx?_lt_eq_findLane (l : ℚ) : ∀ ends : List ℚ,
    ends.findIdx? (fun e => decide (e < l - 8)) =
      if findLane l ends = ends.length then none else some (findLane l ends) := by
  intro ends
  induction ends with
  | nil => simp [findLane]
  | cons e rest ih =>
    by_cases hc : l ≤ e + 8
    · have he : ¬ (e < l - 8) := by intro h; linarith
      rw [findLane, if_pos hc]
      simp only [List.findIdx?_cons, decide_eq_true_eq]
      rw [if_neg he, List.findIdx?_start_succ, ih]
      by_cases hend : findLane l rest = rest.length
      · rw [if_pos hend, if_pos (by simp [hend])]
        simp
      · rw [if_neg hend, if_neg (by simp; omega)]
        simp
    · have he : e < l - 8 := by linarith [lt_of_not_le hc]
      rw [findLane, if_neg hc]
      simp [he]

theorem set_append_length (ends : List ℚ) (a b : ℚ) :
    (ends ++ [a]).set ends.length b = ends ++ [b] := by
  induction ends with
  | nil => simp
  | cons e rest ih => simp [ih]

theorem specGoLt_eq_assignGo (left right : α → ℚ) :
    ∀ (list : List α) (ends : List ℚ),
      specGoLt left right ends list = assignGo left right ends list := by
  intro list
  induction list with
  | nil => intro ends; rfl
  | cons d rest ih =>
    intro ends
    rw [specGoLt, assignGo, findIdx?_lt_eq_findLane]
    by_cases hend : findLane (left d) ends = ends.length
    · rw [if_pos hend]
      simp only []
      rw [set_append_length, ih]
      unfold updateEnds
      rw [if_pos hend, hend]
    · rw [if_neg hend]
      simp only []
      rw [ih]
      unfold updateEnds
      rw [if_neg hend]

/-! ### Temporal scale (d3.scaleTime, as used at McuConnections.tsx line 282) -/

/-- The normalization step of d3's linear/time scale (library code): maps `t`
to its fraction of the domain `[a, b]`, and to the constant `1/2` when the
domain is degenerate (`b - a = 0`), avoiding a division by zero. -/
def d3Normalize (a b t : ℚ) : ℚ :=
  if b - a = 0 then 1 / 2 else (t - a) / (b - a)

/-- Application of `d3.scaleTime().domain([a, b]).range([x0, x1])` applied to `t`:
linear interpolation of the normalized position into the pixel range. -/
def scaleApply (a b x0 x1 t : ℚ) : ℚ :=
  x0 + d3Normalize a b t * (x1 - x0)

/-! ### Connection data model (McuConnections.tsx) -/

inductive ArcSide where
  | top
  | bottom
deriving DecidableEq

inductive ArcType where
  | sequel
  | crossover
  | carryover
deriving DecidableEq

structure Connection where
  ctype : ArcType
  cfrom : String
  cto : String
  side : Option ArcSide
deriving DecidableEq

/-- The hand-authored relationship list `CONNECTIONS` (McuConnections.tsx lines 37-82). -/
def CONNECTIONS : List Connection := [
  ⟨.sequel, "Iron Man", "Iron Man 2", some .top⟩,
  ⟨.sequel, "Iron Man 2", "Iron Man 3", some .bottom⟩,
  ⟨.crossover, "Iron Man 2", "The Avengers", some .top⟩,
  ⟨.sequel, "Thor", "Thor: The Dark World", some .bottom⟩,
  ⟨.crossover, "Thor", "The Avengers", some .bottom⟩,
  ⟨.sequel, "Captain America: The First Avenger", "Captain America: The Winter Soldier", some .top⟩,
  ⟨.crossover, "Captain America: The First Avenger", "The Avengers", some .top⟩,
  ⟨.sequel, "The Avengers", "Avengers: Age of Ultron", some .top⟩,
  ⟨.carryover, "The Avengers", "Thor: The Dark World", some .bottom⟩,
  ⟨.carryover, "The Avengers", "Captain America: The Winter Soldier", some .top⟩,
  ⟨.crossover, "Iron Man 3", "Avengers: Age of Ultron", some .top⟩,
  ⟨.sequel, "Thor: The Dark World", "Thor: Ragnarok", some .bottom⟩,
  ⟨.crossover, "Thor: The Dark World", "Avengers: Age of Ultron", some .top⟩,
  ⟨.sequel, "Captain America: The Winter Soldier", "Captain America: Civil War", some .bottom⟩,
  ⟨.crossover, "Captain America: The Winter Soldier", "Avengers: Age of Ultron", some .top⟩,
  ⟨.carryover, "Captain America: The Winter Soldier", "Avengers: Age of Ultron", some .bottom⟩,
  ⟨.sequel, "Guardians of the Galaxy", "Guardians of the Galaxy Vol. 2", some .top⟩,
  ⟨.sequel, "Avengers: Age of Ultron", "Avengers: Infinity War", some .top⟩,
  ⟨.carryover, "Avengers: Age of Ultron", "Captain America: Civil War", some .top⟩,
  ⟨.sequel, "Ant-Man", "Ant-Man and the Wasp", some .bottom⟩,
  ⟨.crossover, "Ant-Man", "Captain America: Civil War", some .top⟩,
  ⟨.crossover, "Captain America: Civil War", "Avengers: Infinity War", some .top⟩,
  ⟨.carryover, "Captain America: Civil War", "Black Widow", some .top⟩,
  ⟨.sequel, "Captain America: Civil War", "Captain America: Brave New World", some .bottom⟩,
  ⟨.carryover, "Captain America: Civil War", "Spider-Man: Homecoming", some .bottom⟩,
  ⟨.carryover, "Captain America: Civil War", "Black Panther", some .top⟩,
  ⟨.sequel, "Doctor Strange", "Doctor Strange in the Multiverse of Madness", some .top⟩,
  ⟨.crossover, "Doctor Strange", "Avengers: Infinity War", some .bottom⟩,
  ⟨.sequel, "Guardians of the Galaxy Vol. 2", "Guardians of the Galaxy Vol. 3", some .top⟩,
  ⟨.crossover, "Guardians of the Galaxy Vol. 2", "Avengers: Infinity War", some .top⟩,
  ⟨.sequel, "Spider-Man: Homecoming", "Spider-Man: Far From Home", some .top⟩,
  ⟨.crossover, "Spider-Man: Homecoming", "Avengers: Infinity War", some .bottom⟩,
  ⟨.sequel, "Thor: Ragnarok", "Thor: Love and Thunder", some .top⟩,
  ⟨.crossover, "Thor: Ragnarok", "Avengers: Infinity War", some .bottom⟩,
  ⟨.carryover, "Thor: Ragnarok", "Avengers: Infinity War", some .top⟩,
  ⟨.sequel, "Black Panther", "Black Panther: Wakanda Forever", some .top⟩,
  ⟨.crossover, "Black Panther", "Avengers: Infinity War", some .top⟩,
  ⟨.sequel, "Avengers: Infinity War", "Avengers: Endgame", some .top⟩,
  ⟨.sequel, "Ant-Man and the Wasp", "Ant-Man and the Wasp: Quantumania", some .bottom⟩,
  ⟨.sequel, "Captain Marvel", "The Marvels", some .top⟩,
  ⟨.crossover, "Captain Marvel", "Avengers: Endgame", some .bottom⟩,
  ⟨.carryover, "Avengers: Endgame", "Spider-Man: Far From Home", some .top⟩,
  ⟨.sequel, "Spider-Man: Far From Home", "Spider-Man: No Way Home", some .bottom⟩,
  ⟨.carryover, "Spider-Man: No Way Home", "Doctor Strange in the Multiverse of Madness", some .top⟩]

/-- A parsed catalog entry (`Movie` in McuConnections.tsx).  `releaseDate` is
the millisecond timestamp of the (valid) parsed date; `posterUrl` is `none`
when the poster path is blank (`null` in the source). -/
structure Movie where
  id : String
  title : String
  phase : ℚ
  releaseDate : ℤ
  releaseDateStr : String
  posterUrl : Option String
deriving DecidableEq

/-- The `byTitle` map (lines 365-366): built by inserting every movie under its
title, so the LAST movie with a given title wins; lookup returns that movie. -/
def byTitleGet (movies : List Movie) (t : String) : Option Movie :=
  movies.foldl (fun acc m => if m.title = t then some m else acc) none

/-- A resolved connection (lines 368-381): the underlying tuple, its effective
side (`c.side ?? 'top'`), both endpoint movies and the pixel geometry. -/
structure Resolved where
  conn : Connection
  side : ArcSide
  a : Movie
  b : Movie
  x1 : ℚ
  x2 : ℚ
  leftX : ℚ
  rightX : ℚ
  span : ℚ
deriving DecidableEq

/-- The `.map` step of `resolvedAll`: `null` when either endpoint title is
absent from the catalog, the resolved record otherwise. -/
def resolveConn (x : ℤ → ℚ) (movies : List Movie) (c : Connection) : Option Resolved :=
  match byTitleGet movies c.cfrom, byTitleGet movies c.cto with
  | some a, some b =>
    let x1p := x a.releaseDate
    let x2p := x b.releaseDate
    let leftX := min x1p x2p
    let rightX := max x1p x2p
    some ⟨c, c.side.getD .top, a, b, x1p, x2p, leftX, rightX, rightX - leftX⟩
  | _, _ => none

/-- The comparator `(p, q) => p.leftX - q.leftX || q.span - p.span` as the
total preorder JavaScript's stable sort orders by: ascending `leftX`,
ties broken by descending `span`. -/
def connLe (p q : Resolved) : Bool :=
  decide (p.leftX < q.leftX) || (decide (p.leftX = q.leftX) && decide (q.span ≤ p.span))

/-- Definition `resolvedAll` (lines 368-383): resolve every connection, drop the
unresolvable ones, and sort by ascending left edge, ties by descending span. -/
def resolvedAll (x : ℤ → ℚ) (movies : List Movie) : List Resolved :=
  (CONNECTIONS.filterMap (resolveConn x movies)).mergeSort connLe

inductive FilterMode where
  | all
  | only (t : ArcType)
deriving DecidableEq

/-- Whether an arc type passes the active filter
(`filterMode === 'all' ? true : d.type === filterMode`). -/
def typeVisible (fm : FilterMode) (t : ArcType) : Bool :=
  match fm with
  | .all => true
  | .only u => t == u

/-- Definition `resolvedVisible` (line 385). -/
def resolvedVisible (x : ℤ → ℚ) (movies : List Movie) (fm : FilterMode) : List Resolved :=
  (resolvedAll x movies).filter (fun d => typeVisible fm d.conn.ctype)

/-- Definition `arcsTop` (line 398): lanes assigned over the top-side visible arcs. -/
def arcsTop (x : ℤ → ℚ) (movies : List Movie) (fm : FilterMode) : List (Resolved × ℕ) :=
  assignLanes Resolved.leftX Resolved.rightX
    ((resolvedVisible x movies fm).filter (fun d => d.side == ArcSide.top))

/-- Definition `arcsBottom` (line 399). -/
def arcsBottom (x : ℤ → ℚ) (movies : List Movie) (fm : FilterMode) : List (Resolved × ℕ) :=
  assignLanes Resolved.leftX Resolved.rightX
    ((resolvedVisible x movies fm).filter (fun d => d.side == ArcSide.bottom))

/-- Definition `arcsWithLane` (line 400). -/
def arcsWithLane (x : ℤ → ℚ) (movies : List Movie) (fm : FilterMode) : List (Resolved × ℕ) :=
  arcsTop x movies fm ++ arcsBottom x movies fm

/-- The highlight set computed by `applyHighlight` (lines 544-548): the hovered
title plus the `to` endpoints of the rendered arcs whose `from` is the hovered
title.  (The source collects these into a `Set<string>`; membership in this
list is what matters.) -/
def highlightTitles (x : ℤ → ℚ) (movies : List Movie) (fm : FilterMode)
    (hoverTitle : String) : List String :=
  hoverTitle ::
    (((arcsWithLane x movies fm).filter (fun p => p.1.conn.cfrom == hoverTitle)).map
      (fun p => p.1.conn.cto))

/-- C7. Temporal-scale degenerate-domain safety: with a degenerate domain
(`minPosition == maxPosition`) the scale performs no division by zero and
returns the midpoint of the pixel range for every input position. -/
theorem scaleApply_degenerate (a b x0 x1 t : ℚ) (h : a = b) :
    scaleApply a b x0 x1 t = (x0 + x1) / 2 := by
  subst h
  rw [scaleApply, d3Normalize, if_pos (sub_self a)]
  ring

theorem scaleApply_degenerate_witness :
    (5 : ℚ) = 5 ∧ scaleApply 5 5 0 100 (-37) = (0 + 100) / 2 :=
  ⟨rfl, scaleApply_degenerate 5 5 0 100 (-37) rfl⟩

theorem filterMap_resolveConn_map_conn (x : ℤ → ℚ) (movies : List Movie) :
    ∀ l : List Connection,
      (l.filterMap (resolveConn x movies)).map Resolved.conn =
        l.filter (fun c =>
          (byTitleGet movies c.cfrom).isSome && (byTitleGet movies c.cto).isSome) := by
  intro l
  induction l with
  | nil => rfl
  | cons c rest ih =>
    rw [List.filterMap_cons, List.filter_cons]
    rcases hf : byTitleGet movies c.cfrom with _ | a <;>
      rcases ht : byTitleGet movies c.cto with _ | b <;>
        simp [resolveConn, hf, ht, ih]

/-- C6. Join-failure handling: the resolved connection list is exactly (up to
the sort's permutation) the sub-list of `CONNECTIONS` whose `from` and `to`
titles both occur in the loaded catalog: tuples with an unresolvable endpoint
are silently dropped, all fully-resolvable tuples are kept. -/
theorem resolvedAll_conn_perm (x : ℤ → ℚ) (movies : List Movie) :
    ((resolvedAll x movies).map Resolved.conn).Perm
      (CONNECTIONS.filter (fun c =>
        (byTitleGet movies c.cfrom).isSome && (byTitleGet movies c.cto).isSome)) := by
  have h1 : (resolvedAll x movies).Perm (CONNECTIONS.filterMap (resolveConn x movies)) :=
    List.mergeSort_perm _ _
  have h2 := h1.map Resolved.conn
  rw [filterMap_resolveConn_map_conn] at h2
  exact h2

theorem connLe_iff (p q : Resolved) :
    connLe p q = true ↔ p.leftX < q.leftX ∨ (p.leftX = q.leftX ∧ q.span ≤ p.span) := by
  simp [connLe]

theorem connLe_trans (p q r : Resolved) (h1 : connLe p q) (h2 : connLe q r) : connLe p r := by
  rw [connLe_iff] at h1 h2 ⊢
  rcases h1 with h1 | ⟨h1e, h1s⟩ <;> rcases h2 with h2 | ⟨h2e, h2s⟩
  · exact Or.inl (lt_trans h1 h2)
  · exact Or.inl (h2e ▸ h1)
  · exact Or.inl (h1e ▸ h2)
  · exact Or.inr ⟨h1e.trans h2e, le_trans h2s h1s⟩

theorem connLe_total (p q : Resolved) : connLe p q || connLe q p := by
  rw [Bool.or_eq_true, connLe_iff, connLe_iff]
  rcases lt_trichotomy p.leftX q.leftX with h | h | h
  · exact Or.inl (Or.inl h)
  · rcases le_total p.span q.span with hs | hs
    · exact Or.inr (Or.inr ⟨h.symm, hs⟩)
    · exact Or.inl (Or.inr ⟨h, hs⟩)
  · exact Or.inr (Or.inl h)

/-- The counterexample to C2 as stated: on the interval list
`[[0,2], [10,11]]` the second interval starts at `10` and lane 0's right-edge
is `2 ≤ 10 − 8`, so the claimed (non-strict) first-fit re-uses lane 0 — but the
code's scan (`leftX <= laneRightEnds[lane] + 8` skips the lane on equality)
opens lane 1 instead. -/
theorem assignLanes_ne_specLe :
    ((assignLanes Ivl.leftX Ivl.rightX [Ivl.mk 0 2, Ivl.mk 10 11]).map Prod.snd = [0, 1]) ∧
      ((specAssignLanesLe Ivl.leftX Ivl.rightX [Ivl.mk 0 2, Ivl.mk 10 11]).map Prod.snd
        = [0, 0]) := by
  constructor
  · norm_num [assignLanes, assignGo, findLane, updateEnds]
  · norm_num [specAssignLanesLe, specGoLe, List.findIdx?_cons]

/-- C2 (amended). First-fit algorithm steps: the allocator's input is sorted by
ascending start position with ties broken by descending span, and the
allocator equals the spec's first-fit with the STRICT lane test
`right-edge < interval.start − gap` (open a new lane when no lane passes,
then set the lane's right-edge to the interval's end). -/
theorem resolvedAll_sorted_and_assignLanes_firstFit :
    (∀ (x : ℤ → ℚ) (movies : List Movie),
      List.Pairwise
        (fun p q : Resolved => p.leftX < q.leftX ∨ (p.leftX = q.leftX ∧ q.span ≤ p.span))
        (resolvedAll x movies)) ∧
    (∀ (α : Type) (left right : α → ℚ) (list : List α),
      assignLanes left right list = specAssignLanesLt left right list) := by
  constructor
  · intro x movies
    have h := List.sorted_mergeSort connLe_trans connLe_total
      (CONNECTIONS.filterMap (resolveConn x movies))
    exact h.imp (fun hpq => (connLe_iff _ _).mp hpq)
  · intro α left right list
    rw [assignLanes, specAssignLanesLt, specGoLt_eq_assignGo]

theorem assignGo_map_fst (left right : α → ℚ) :
    ∀ (list : List α) (ends : List ℚ),
      (assignGo left right ends list).map Prod.fst = list := by
  intro list
  induction list with
  | nil => intro ends; rfl
  | cons d rest ih => intro ends; rw [assignGo]; simp [ih]

theorem mem_arcsWithLane_fst (x : ℤ → ℚ) (movies : List Movie) (fm : FilterMode)
    (r : Resolved) :
    (∃ p ∈ arcsWithLane x movies fm, p.1 = r) ↔ r ∈ resolvedVisible x movies fm := by
  constructor
  · rintro ⟨p, hp, rfl⟩
    rcases List.mem_append.mp hp with h | h
    · have hm : p.1 ∈ (arcsTop x movies fm).map Prod.fst := List.mem_map_of_mem _ h
      rw [arcsTop, assignLanes, assignGo_map_fst] at hm
      exact (List.mem_filter.mp hm).1
    · have hm : p.1 ∈ (arcsBottom x movies fm).map Prod.fst := List.mem_map_of_mem _ h
      rw [arcsBottom, assignLanes, assignGo_map_fst] at hm
      exact (List.mem_filter.mp hm).1
  · intro hr
    cases hs : r.side with
    | top =>
      have hm : r ∈ ((resolvedVisible x movies fm).filter
          (fun d => d.side == ArcSide.top)).map id := by
        simp [List.mem_filter, hr, hs]
      rw [List.map_id] at hm
      rw [show ((resolvedVisible x movies fm).filter (fun d => d.side == ArcSide.top)) =
          (arcsTop x movies fm).map Prod.fst by
        rw [arcsTop, assignLanes, assignGo_map_fst]] at hm
      rcases List.mem_map.mp hm with ⟨p, hp, hfst⟩
      exact ⟨p, List.mem_append.mpr (Or.inl hp), hfst⟩
    | bottom =>
      have hm : r ∈ ((resolvedVisible x movies fm).filter
          (fun d => d.side == ArcSide.bottom)).map id := by
        simp [List.mem_filter, hr, hs]
      rw [List.map_id] at hm
      rw [show ((resolvedVisible x movies fm).filter (fun d => d.side == ArcSide.bottom)) =
          (arcsBottom x movies fm).map Prod.fst by
        rw [arcsBottom, assignLanes, assignGo_map_fst]] at hm
      rcases List.mem_map.mp hm with ⟨p, hp, hfst⟩
      exact ⟨p, List.mem_append.mpr (Or.inr hp), hfst⟩

theorem resolveConn_eq_some (x : ℤ → ℚ) (movies : List Movie) (c : Connection)
    (r : Resolved) (h : resolveConn x movies c = some r) :
    r.conn = c ∧ (byTitleGet movies c.cfrom).isSome ∧ (byTitleGet movies c.cto).isSome := by
  rcases hf : byTitleGet movies c.cfrom with _ | a <;>
    rcases ht : byTitleGet movies c.cto with _ | b <;>
      rw [resolveConn, hf, ht] at h
  · exact absurd h (by simp)
  · exact absurd h (by simp)
  · exact absurd h (by simp)
  · have hr := Option.some.inj h
    exact ⟨by rw [← hr], by simp, by simp⟩

theorem resolveConn_isSome (x : ℤ → ℚ) (movies : List Movie) (c : Connection)
    (hf : (byTitleGet movies c.cfrom).isSome) (ht : (byTitleGet movies c.cto).isSome) :
    ∃ r, resolveConn x movies c = some r ∧ r.conn = c := by
  rcases hf' : byTitleGet movies c.cfrom with _ | a
  · rw [hf'] at hf; simp at hf
  rcases ht' : byTitleGet movies c.cto with _ | b
  · rw [ht'] at ht; simp at ht
  exact ⟨_, by rw [resolveConn, hf', ht'], rfl⟩

theorem highlightTitles_mem_aux (x : ℤ → ℚ) (movies : List Movie) (fm : FilterMode)
    (hoverTitle t : String) :
    t ∈ highlightTitles x movies fm hoverTitle ↔
      (t = hoverTitle ∨ ∃ c ∈ CONNECTIONS,
        (byTitleGet movies c.cfrom).isSome ∧ (byTitleGet movies c.cto).isSome ∧
          typeVisible fm c.ctype ∧ c.cfrom = hoverTitle ∧ c.cto = t) := by
  rw [highlightTitles, List.mem_cons]
  apply or_congr Iff.rfl
  constructor
  · intro hm
    rcases List.mem_map.mp hm with ⟨p, hp, hto⟩
    have hfrom : p.1.conn.cfrom = hoverTitle := by
      have := (List.mem_filter.mp hp).2
      simpa using this
    have hpw : ∃ q ∈ arcsWithLane x movies fm, q.1 = p.1 :=
      ⟨p, (List.mem_filter.mp hp).1, rfl⟩
    have hrv : p.1 ∈ resolvedVisible x movies fm := (mem_arcsWithLane_fst _ _ _ _).mp hpw
    have hvis : typeVisible fm p.1.conn.ctype := by
      have := (List.mem_filter.mp (by rw [resolvedVisible] at hrv; exact hrv)).2
      simpa using this
    have hall : p.1 ∈ resolvedAll x movies :=
      (List.mem_filter.mp (by rw [resolvedVisible] at hrv; exact hrv)).1
    have hfm : p.1 ∈ CONNECTIONS.filterMap (resolveConn x movies) := by
      rw [resolvedAll] at hall
      exact List.mem_mergeSort.mp hall
    rcases List.mem_filterMap.mp hfm with ⟨c, hc, hres⟩
    rcases resolveConn_eq_some x movies c p.1 hres with ⟨hconn, hf, ht'⟩
    exact ⟨c, hc, hf, ht', by rw [← hconn]; exact hvis,
      by rw [← hconn]; exact hfrom, by rw [← hconn, hto]⟩
  · rintro ⟨c, hc, hf, ht', hvis, hfrom, hto⟩
    rcases resolveConn_isSome x movies c hf ht' with ⟨r, hres, hconn⟩
    have hall : r ∈ resolvedAll x movies := by
      rw [resolvedAll]
      exact List.mem_mergeSort.mpr (List.mem_filterMap.mpr ⟨c, hc, hres⟩)
    have hrv : r ∈ resolvedVisible x movies fm := by
      rw [resolvedVisible]
      exact List.mem_filter.mpr ⟨hall, by simp [hconn, hvis]⟩
    rcases (mem_arcsWithLane_fst x movies fm r).mpr hrv with ⟨p, hp, hfst⟩
    refine List.mem_map.mpr ⟨p, List.mem_filter.mpr ⟨hp, by simp [hfst, hconn, hfrom]⟩, ?_⟩
    rw [hfst, hconn, hto]

/-- C4 (amended). Highlight-set computation: a title is in the recomputed
highlight set iff it is the hovered anchor itself, or some relationship tuple
(whose endpoints both resolve against the catalog and whose type passes the
active filter) leads FROM the anchor TO that title.  Entities merely connected
INTO the anchor are not included; on pointer-leave the label overlay is
cleared wholesale (`clearMultiTooltips` removes every transient label). -/
theorem mem_highlightTitles (x : ℤ → ℚ) (movies : List Movie) (fm : FilterMode)
    (hoverTitle t : String) :
    t ∈ highlightTitles x movies fm hoverTitle ↔
      (t = hoverTitle ∨ ∃ c ∈ CONNECTIONS,
        (byTitleGet movies c.cfrom).isSome ∧ (byTitleGet movies c.cto).isSome ∧
          typeVisible fm c.ctype ∧ c.cfrom = hoverTitle ∧ c.cto = t) :=
  highlightTitles_mem_aux x movies fm hoverTitle t

/-- A two-movie catalog containing `Iron Man 2` and `The Avengers`. -/
def moviesIM2Avengers : List Movie :=
  [⟨"10138", "Iron Man 2", 1, 0, "2010-05-07", none⟩,
   ⟨"24428", "The Avengers", 1, 100, "2012-05-04", none⟩]

/-- The counterexample to C4 as stated: hovering `The Avengers` over this
catalog, `Iron Man 2` IS connected to the anchor via the relationship data
(the crossover tuple `Iron Man 2 → The Avengers`, both endpoints resolvable),
yet `applyHighlight` does not put it in the highlight set, because only
OUTGOING arcs (`d.from === hoverTitle`) are collected. -/
theorem highlightTitles_missing_incoming :
    ("Iron Man 2" ∉
        highlightTitles (fun t => (t : ℚ)) moviesIM2Avengers FilterMode.all "The Avengers") ∧
      ∃ c ∈ CONNECTIONS, c.cfrom = "Iron Man 2" ∧ c.cto = "The Avengers" ∧
        (byTitleGet moviesIM2Avengers c.cfrom).isSome ∧
          (byTitleGet moviesIM2Avengers c.cto).isSome := by
  constructor
  · rw [highlightTitles_mem_aux]
    decide
  · decide

/-! ### Collision-resolving label placer (`resolveBandVerticalLayout`, lines 109-151) -/

/-- A floating label card in one band: `cx` is its anchor pixel, `left`/`width`/
`height`/`top` give its bounding rect (`right = left + width`,
`bottom = top + height`); `top` is the mutable `style.top`. -/
structure LNode where
  cx : ℚ
  left : ℚ
  width : ℚ
  height : ℚ
  top : ℚ
deriving DecidableEq

def rectRight (n : LNode) : ℚ := n.left + n.width

def rectBottom (n : LNode) : ℚ := n.top + n.height

/-- Predicate `overlaps(a, b, pad)` (lines 105-107): axis-aligned bounding-box test with
padding (note the source pads only three of the four comparisons). -/
def overlapsB (a b : LNode) (pad : ℚ) : Bool :=
  !(decide (rectRight a + pad < b.left) || decide (a.left > rectRight b + pad) ||
    decide (rectBottom a + pad < b.top) || decide (a.top > rectBottom b))

/-- Function `clamp` (lines 100-102). -/
def clamp (v lo hi : ℚ) : ℚ := max lo (min hi v)

inductive PushDir where
  | up
  | down
deriving DecidableEq

def dirSign : PushDir → ℚ
  | .up => -1
  | .down => 1

/-- One box's `while (moved && guard++ < 60)` loop (lines 125-148): find the
first previously placed box in the band that overlaps `a`; if there is one,
push `a` away from the baseline by `0.6 · (neighbor height + gap)` clamped to
`[6, containerH − a.height − 6]` and re-test, giving up after the iteration
cap.  Returns the final box together with the number of loop-body
executions. -/
def pushLoop (placed : List LNode) (dir : PushDir) (containerH gap : ℚ) :
    ℕ → LNode → LNode × ℕ
  | 0, a => (a, 0)
  | fuel + 1, a =>
    match placed.find? (fun b => overlapsB a b gap) with
    | none => (a, 1)
    | some b =>
      let pushBy := dirSign dir * (b.height + gap) * (3 / 5)
      let nextTop := clamp (a.top + pushBy) 6 (containerH - a.height - 6)
      let r := pushLoop placed dir containerH gap fuel { a with top := nextTop }
      (r.1, r.2 + 1)

/-- The outer `for (let i = 0; ...)` loop (lines 120-150): each box is pushed
against the boxes already finalized before it (band order). -/
def resolveGo (dir : PushDir) (containerH gap : ℚ) :
    List LNode → List LNode → List (LNode × ℕ)
  | _, [] => []
  | placed, a :: rest =>
    let r := pushLoop placed dir containerH gap 60 a
    r :: resolveGo dir containerH gap (placed ++ [r.1]) rest

/-- Function `resolveBandVerticalLayout` (lines 109-151): sort the band's boxes by
anchor x, reset every box's top to `baseTop`, then run the per-box push
loops.  Returns each box's final state paired with its loop-body count. -/
def resolveBandVerticalLayout (nodes : List LNode) (baseTop : ℚ) (dir : PushDir)
    (containerH : ℚ) (gap : ℚ) : List (LNode × ℕ) :=
  resolveGo dir containerH gap []
    ((nodes.mergeSort (fun p q => decide (p.cx ≤ q.cx))).map
      (fun n => { n with top := baseTop }))

theorem pushLoop_height (placed : List LNode) (dir : PushDir) (containerH gap : ℚ) :
    ∀ (fuel : ℕ) (a : LNode),
      (pushLoop placed dir containerH gap fuel a).1.height = a.height := by
  intro fuel
  induction fuel with
  | zero => intro a; rfl
  | succ n ih =>
    intro a
    rw [pushLoop]
    rcases placed.find? (fun b => overlapsB a b gap) with _ | b
    · rfl
    · simpa using ih _

theorem pushLoop_count_le (placed : List LNode) (dir : PushDir) (containerH gap : ℚ) :
    ∀ (fuel : ℕ) (a : LNode), (pushLoop placed dir containerH gap fuel a).2 ≤ fuel := by
  intro fuel
  induction fuel with
  | zero => intro a; exact le_refl 0
  | succ n ih =>
    intro a
    rw [pushLoop]
    rcases placed.find? (fun b => overlapsB a b gap) with _ | b
    · simp
    · simpa using ih _

theorem pushLoop_band (placed : List LNode) (dir : PushDir) (containerH gap : ℚ)
    (baseTop : ℚ) :
    ∀ (fuel : ℕ) (a : LNode), a.height + 12 ≤ containerH →
      (a.top = baseTop ∨ (6 ≤ a.top ∧ a.top ≤ containerH - a.height - 6)) →
      ((pushLoop placed dir containerH gap fuel a).1.top = baseTop ∨
        (6 ≤ (pushLoop placed dir containerH gap fuel a).1.top ∧
          (pushLoop placed dir containerH gap fuel a).1.top ≤
            containerH - (pushLoop placed dir containerH gap fuel a).1.height - 6)) := by
  intro fuel
  induction fuel with
  | zero => intro a _ hinv; exact hinv
  | succ n ih =>
    intro a hH hinv
    rw [pushLoop]
    rcases placed.find? (fun b => overlapsB a b gap) with _ | b
    · exact hinv
    · simp only []
      apply ih
      · simpa using hH
      · refine Or.inr ?_
        constructor
        · exact le_max_left _ _
        · have hlohi : (6 : ℚ) ≤ containerH - a.height - 6 := by linarith
          calc clamp (a.top + dirSign dir * (b.height + gap) * (3 / 5)) 6
                (containerH - a.height - 6)
              ≤ max 6 (containerH - a.height - 6) :=
                max_le_max (le_refl _) (min_le_left _ _)
            _ = containerH - a.height - 6 := max_eq_right hlohi

theorem resolveGo_band (dir : PushDir) (containerH gap baseTop : ℚ) :
    ∀ (list placed : List LNode),
      (∀ n ∈ list, n.height + 12 ≤ containerH ∧ n.top = baseTop) →
      ∀ p ∈ resolveGo dir containerH gap placed list,
        p.2 ≤ 60 ∧ (p.1.top = baseTop ∨
          (6 ≤ p.1.top ∧ p.1.top ≤ containerH - p.1.height - 6)) := by
  intro list
  induction list with
  | nil => intro placed _ p hp; simp [resolveGo] at hp
  | cons a rest ih =>
    intro placed hall p hp
    rw [resolveGo] at hp
    rcases List.mem_cons.mp hp with hp | hp
    · subst hp
      refine ⟨pushLoop_count_le _ _ _ _ _ _, ?_⟩
      have ha := hall a (by simp)
      have := pushLoop_band placed dir containerH gap baseTop 60 a ha.1 (Or.inl ha.2)
      simpa [pushLoop_height] using this
    · exact ih _ (fun n hn => hall n (by simp [hn])) p hp

/-- C3 (amended). Label-placer termination and band bounds: every box's push
loop runs at most the 60-iteration cap, and every box's returned top either
still equals the band's base top (a box that was never pushed keeps its
unclamped initial position) or lies within the viewport band bounds
`[6, containerH − height − 6]` — the clamp applies only to pushed boxes, and
needs the band to be at least `height + 12` tall. -/
theorem resolveBand_terminates_and_bounded (nodes : List LNode) (baseTop : ℚ)
    (dir : PushDir) (containerH gap : ℚ)
    (h : ∀ n ∈ nodes, n.height + 12 ≤ containerH) :
    ∀ p ∈ resolveBandVerticalLayout nodes baseTop dir containerH gap,
      p.2 ≤ 60 ∧ (p.1.top = baseTop ∨
        (6 ≤ p.1.top ∧ p.1.top ≤ containerH - p.1.height - 6)) := by
  intro p hp
  refine resolveGo_band dir containerH gap baseTop _ [] ?_ p hp
  intro n hn
  rcases List.mem_map.mp hn with ⟨m, hm, rfl⟩
  exact ⟨h m (List.mem_mergeSort.mp hm), rfl⟩

theorem resolveBand_terminates_and_bounded_witness :
    (∀ n ∈ [LNode.mk 0 0 40 20 0, LNode.mk 1 1 40 20 0], n.height + 12 ≤ (100 : ℚ)) ∧
      (∀ p ∈ resolveBandVerticalLayout
          [LNode.mk 0 0 40 20 0, LNode.mk 1 1 40 20 0] 30 PushDir.down 100 4,
        p.2 ≤ 60 ∧ (p.1.top = 30 ∨ (6 ≤ p.1.top ∧ p.1.top ≤ 100 - p.1.height - 6))) :=
  ⟨by norm_num, resolveBand_terminates_and_bounded
    [LNode.mk 0 0 40 20 0, LNode.mk 1 1 40 20 0] 30 PushDir.down 100 4 (by norm_num)⟩

/-- The counterexample to C3 as stated: a box that never collides is never
pushed, so its returned top stays at the band's base top even when that
position lies OUTSIDE the claimed band bounds `[6, containerH − height − 6]`:
here a single box ends at top `0 < 6`. -/
theorem resolveBand_base_top_outside_band :
    ¬ (∀ p ∈ resolveBandVerticalLayout [LNode.mk 0 0 40 20 50] 0 PushDir.down 100 4,
        6 ≤ p.1.top ∧ p.1.top ≤ 100 - p.1.height - 6) := by
  intro h
  have := h (LNode.mk 0 0 40 20 0, 1) (by norm_num [resolveBandVerticalLayout,
    resolveGo, pushLoop, List.find?])
  norm_num at this

/-! ### Catalog loading (`load`, McuConnections.tsx lines 165-246)

The JavaScript numeric coercions are supplied as parameters: `jsNum` models
`Number(string)` and `jsDate` models `new Date(string).getTime()`, with
`none` standing for `NaN` (an invalid date).  Every theorem below holds for
ANY such coercion functions. -/

/-- A raw row of `marvel_movies_tmdb.csv` as the code reads it. -/
structure CsvRow where
  id : String
  title : String
  phase : String
  release_date : String
  poster_path : String
deriving DecidableEq

def TMDB_POSTER_BASE : String := "https://image.tmdb.org/t/p/w185"

/-- Function `parsePhase` (lines 84-88): coerce the trimmed string to a number and
accept it iff `1 ≤ n ≤ 6` (NaN fails both comparisons). -/
def parsePhase (jsNum : String → Option ℚ) (raw : String) : Option ℚ :=
  match jsNum raw.trim with
  | some n => if 1 ≤ n ∧ n ≤ 6 then some n else none
  | none => none

/-- One row of the `.map` at lines 171-193: `null` when the phase is invalid,
the date is invalid, the trimmed title is empty, or the title is
`The Incredible Hulk`; otherwise the parsed `Movie`. -/
def parseMovieRow (jsNum : String → Option ℚ) (jsDate : String → Option ℤ)
    (r : CsvRow) : Option Movie :=
  match parsePhase jsNum r.phase, jsDate r.release_date with
  | some phase, some date =>
    let title := r.title.trim
    if title = "" then none
    else if title = "The Incredible Hulk" then none
    else
      let posterPath := r.poster_path.trim
      some ⟨r.id, title, phase, date, r.release_date,
        if posterPath = "" then none else some (TMDB_POSTER_BASE ++ posterPath)⟩
  | _, _ => none

/-- Comparator `(a, b) => a.releaseDate.getTime() - b.releaseDate.getTime()`. -/
def movieLe (a b : Movie) : Bool := decide (a.releaseDate ≤ b.releaseDate)

/-- The parsed catalog (lines 171-195): map rows, drop the `null`s, sort by
ascending release date (JavaScript's stable sort). -/
def parseCatalog (jsNum : String → Option ℚ) (jsDate : String → Option ℤ)
    (rows : List CsvRow) : List Movie :=
  (rows.filterMap (parseMovieRow jsNum jsDate)).mergeSort movieLe

theorem parsePhase_eq_some (jsNum : String → Option ℚ) (raw : String) (n : ℚ)
    (h : parsePhase jsNum raw = some n) : 1 ≤ n ∧ n ≤ 6 := by
  rw [parsePhase] at h
  split at h
  · split at h
    · rename_i hb
      cases h
      exact hb
    · exact absurd h (by simp)
  · exact absurd h (by simp)

theorem parseMovieRow_eq_some (jsNum : String → Option ℚ) (jsDate : String → Option ℤ)
    (r : CsvRow) (m : Movie) (h : parseMovieRow jsNum jsDate r = some m) :
    (1 ≤ m.phase ∧ m.phase ≤ 6) ∧ jsDate m.releaseDateStr = some m.releaseDate ∧
      m.title ≠ "" ∧ m.title ≠ "The Incredible Hulk" := by
  rw [parseMovieRow] at h
  split at h
  · rename_i phase date hp hd
    dsimp only at h
    split at h
    · exact absurd h (by simp)
    · split at h
      · exact absurd h (by simp)
      · rename_i h1 h2
        cases h
        exact ⟨parsePhase_eq_some jsNum r.phase phase hp, hd, h1, h2⟩
  · exact absurd h (by simp)

theorem movieLe_trans (a b c : Movie) (h1 : movieLe a b) (h2 : movieLe b c) :
    movieLe a c := by
  simp only [movieLe, decide_eq_true_eq] at h1 h2 ⊢
  exact le_trans h1 h2

theorem movieLe_total (a b : Movie) : movieLe a b || movieLe b a := by
  simp only [movieLe, Bool.or_eq_true, decide_eq_true_eq]
  exact le_total _ _

/-- C9. Catalog-parsing postcondition: every parsed movie has a phase between
1 and 6, a successfully parsed (non-NaN) release date matching its stored
date string, a non-empty trimmed title different from `The Incredible Hulk`
(rows failing any check are dropped), and the catalog is sorted by ascending
release date. -/
theorem parseCatalog_postcondition (jsNum : String → Option ℚ)
    (jsDate : String → Option ℤ) (rows : List CsvRow) :
    (∀ m ∈ parseCatalog jsNum jsDate rows,
      (1 ≤ m.phase ∧ m.phase ≤ 6) ∧ jsDate m.releaseDateStr = some m.releaseDate ∧
        m.title ≠ "" ∧ m.title ≠ "The Incredible Hulk") ∧
      List.Pairwise (fun a b : Movie => a.releaseDate ≤ b.releaseDate)
        (parseCatalog jsNum jsDate rows) := by
  constructor
  · intro m hm
    rw [parseCatalog] at hm
    rcases List.mem_filterMap.mp (List.mem_mergeSort.mp hm) with ⟨r, _, hr⟩
    exact parseMovieRow_eq_some jsNum jsDate r m hr
  · have h := List.sorted_mergeSort movieLe_trans movieLe_total
      (rows.filterMap (parseMovieRow jsNum jsDate))
    exact h.imp (fun hab => by simpa [movieLe] using hab)

/-! ### Phase ranges and the load boundary (McuConnections.tsx lines 165-246) -/

/-- A contiguous phase segment of the timeline (`PhaseRange`). -/
structure PhaseRange where
  phase : ℚ
  start : ℤ
  stop : ℤ
deriving DecidableEq

/-- Lookup `d3.group(parsed, d => d.phase).get(p)`: the parsed movies of phase `p`,
in catalog order. -/
def phaseMovies (parsed : List Movie) (p : ℚ) : List Movie :=
  parsed.filter (fun m => decide (m.phase = p))

/-- The contiguous phase ranges (lines 197-227): boundaries run from the
overall first release through midpoints between consecutive non-empty phases
(`new Date((a+b)/2)` truncates the averaged timestamp) to the overall last
release. -/
def computePhaseRanges (parsed : List Movie) : List PhaseRange :=
  match parsed.head?, parsed.getLast? with
  | some mFirst, some mLast =>
    let phases := ([1, 2, 3, 4, 5, 6] : List ℚ).filter
      (fun p => !(phaseMovies parsed p).isEmpty)
    if phases.isEmpty then []
    else
      let firstOf := fun p => (((phaseMovies parsed p).head?).map Movie.releaseDate).getD 0
      let lastOf := fun p => (((phaseMovies parsed p).getLast?).map Movie.releaseDate).getD 0
      let inner := (List.range (phases.length - 1)).map
        (fun i => (lastOf (phases.getD i 0) + firstOf (phases.getD (i + 1) 0)) / 2)
      let boundaries := mFirst.releaseDate :: (inner ++ [mLast.releaseDate])
      (List.range phases.length).map
        (fun i => ⟨phases.getD i 0, boundaries.getD i 0, boundaries.getD (i + 1) 0⟩)
  | _, _ => []

/-- The connections chart's loaded state: `movies` and `phaseRanges`. -/
structure ConnData where
  movies : List Movie
  phaseRanges : List PhaseRange
deriving DecidableEq

/-- The load boundary of McuConnections/McuTimeline/McuYearDotPlot
(lines 229-241): a successful fetch commits the parsed state unless the
effect was cancelled; `load().catch(...)` logs the failure and, unless
cancelled, resets the state to empty collections.  The second component is
the console log produced. -/
def mcuLoadBoundary (jsNum : String → Option ℚ) (jsDate : String → Option ℤ)
    (result : Except String (List CsvRow)) (cancelled : Bool) (s : ConnData) :
    ConnData × List String :=
  match result with
  | .ok rows =>
    let parsed := parseCatalog jsNum jsDate rows
    (if cancelled then s else ⟨parsed, computePhaseRanges parsed⟩, [])
  | .error e => (if cancelled then s else ⟨[], []⟩, ["Failed to load CSV: " ++ e])

/-! ### RevenueBarChart's load path (src/src/components/RevenueBarChart.tsx) -/

/-- A raw row of `top10_movies_2008_2025.csv`. -/
structure RevRow where
  id : String
  title : String
  release_date : String
  is_marvel : String
  budget : String
  revenue : String
deriving DecidableEq

/-- A parsed `Movie` of RevenueBarChart (lines 8-15); the numeric fields may
be NaN. -/
structure RevMovie where
  id : String
  title : String
  releaseYear : Option ℚ
  isMarvel : String
  budget : Option ℚ
  revenue : Option ℚ
deriving DecidableEq

/-- One row of the parse loop (lines 35-45):
`releaseYear = Number(release_date.split("-")[0])`. -/
def parseRevMovie (jsNum : String → Option ℚ) (r : RevRow) : RevMovie :=
  ⟨r.id, r.title, jsNum ((r.release_date.splitOn "-").headD ""), r.is_marvel,
    jsNum r.budget, jsNum r.revenue⟩

/-- RevenueBarChart's load boundary (lines 31-50): `loadData()` is invoked
with NO `.catch` and no cancellation flag, so a successful fetch maps the
rows, while a failed fetch is returned un-caught (it escapes as an unhandled
promise rejection and no state is committed or reset). -/
def revenueLoadBoundary (jsNum : String → Option ℚ)
    (result : Except String (List RevRow)) : Except String (List RevMovie) :=
  match result with
  | .ok rows => .ok (rows.map (parseRevMovie jsNum))
  | .error e => .error e

/-- The counterexample to C5 as stated: for the revenue bar chart a fetch
failure is NOT caught at the load boundary — it escapes unchanged (no branch
resets the chart's state to an empty collection and no log is produced),
contradicting "for every chart ... caught at the load boundary ... no failure
propagates to a global handler". -/
theorem revenueLoadBoundary_uncaught :
    revenueLoadBoundary (fun _ => none) (Except.error "fetch failed")
        = Except.error "fetch failed" ∧
      (revenueLoadBoundary (fun _ => none) (Except.error "fetch failed")).isOk = false ∧
      revenueLoadBoundary (fun _ => none) (Except.error "fetch failed")
        ≠ Except.ok ([] : List RevMovie) := by
  refine ⟨rfl, rfl, ?_⟩
  intro h
  exact Except.noConfusion h

/-- C5 (amended). Fetch-failure handling: the connections/timeline/dot-plot
charts catch a failed fetch at the load boundary, log it, and (when not
cancelled) reset their state to empty collections; the revenue/ratings/review
charts have no catch at the boundary, so a failed fetch leaves their state
untouched and the rejection propagates out of the load boundary. -/
theorem loadBoundary_failure_handling :
    (∀ (jsNum : String → Option ℚ) (jsDate : String → Option ℤ) (e : String)
        (s : ConnData),
      mcuLoadBoundary jsNum jsDate (Except.error e) false s
        = (⟨[], []⟩, ["Failed to load CSV: " ++ e])) ∧
      (∀ (jsNum : String → Option ℚ) (e : String),
        revenueLoadBoundary jsNum (Except.error e) = Except.error e) :=
  ⟨fun _ _ _ _ => rfl, fun _ _ => rfl⟩

/-! ### Teardown / cancellation discipline (C8) -/

/-- The async events a chart's load effect can observe: the component being
torn down, or the fetch settling (successfully or not). -/
inductive McuLoadEv where
  | unmount
  | complete (rows : List CsvRow)
  | fail (e : String)

/-- The connections chart's effect-local state: the `cancelled` flag plus the
component state and the console log. -/
structure McuComp where
  cancelled : Bool
  data : ConnData
  log : List String

/-- McuConnections' event handling (lines 165-246): the cleanup sets
`cancelled = true`; a settling fetch runs the load boundary, which checks the
flag before committing. -/
def mcuHandle (jsNum : String → Option ℚ) (jsDate : String → Option ℤ)
    (s : McuComp) : McuLoadEv → McuComp
  | .unmount => ⟨true, s.data, s.log⟩
  | .complete rows =>
    let r := mcuLoadBoundary jsNum jsDate (Except.ok rows) s.cancelled s.data
    ⟨s.cancelled, r.1, s.log ++ r.2⟩
  | .fail e =>
    let r := mcuLoadBoundary jsNum jsDate (Except.error e) s.cancelled s.data
    ⟨s.cancelled, r.1, s.log ++ r.2⟩

def mcuRun (jsNum : String → Option ℚ) (jsDate : String → Option ℤ)
    (evs : List McuLoadEv) (s : McuComp) : McuComp :=
  evs.foldl (mcuHandle jsNum jsDate) s

inductive RevLoadEv where
  | unmount
  | complete (rows : List RevRow)
  | fail (e : String)

/-- RevenueBarChart's effect-local state: no cancellation flag exists;
`unhandled` collects rejections that escaped to the global handler. -/
structure RevComp where
  movies : List RevMovie
  unhandled : List String
deriving DecidableEq

def revInit : RevComp := ⟨[], []⟩

/-- RevenueBarChart's event handling (lines 31-50): the effect registers NO
cleanup (unmount is a no-op), a completion commits unconditionally, and a
failure escapes to the global unhandled-rejection handler with the state
untouched. -/
def revHandle (jsNum : String → Option ℚ) (s : RevComp) : RevLoadEv → RevComp
  | .unmount => s
  | .complete rows =>
    match revenueLoadBoundary jsNum (Except.ok rows) with
    | .ok ms => ⟨ms, s.unhandled⟩
    | .error e => ⟨s.movies, s.unhandled ++ [e]⟩
  | .fail e =>
    match revenueLoadBoundary jsNum (Except.error e) with
    | .ok ms => ⟨ms, s.unhandled⟩
    | .error e' => ⟨s.movies, s.unhandled ++ [e']⟩

def revRun (jsNum : String → Option ℚ) (evs : List RevLoadEv) (s : RevComp) : RevComp :=
  evs.foldl (revHandle jsNum) s

/-- The counterexample to C8 as stated: the revenue bar chart has no
cancellation flag, so a fetch that completes AFTER the component was torn
down still commits its rows into component state (here: one movie appears in
the state of an already-unmounted component). -/
theorem revenue_commits_after_unmount :
    (revRun (fun _ => none)
        [RevLoadEv.unmount,
          RevLoadEv.complete [⟨"1726", "Iron Man", "2008-05-02", "true", "140000000",
            "585171547"⟩]]
        revInit).movies.length = 1 ∧
      revInit.movies.length = 0 :=
  ⟨rfl, rfl⟩

/-- C8 (amended). Cancellation discipline: for the charts that use the
`cancelled` flag (connections, timeline, dot plot), once the flag is set no
later fetch settlement mutates the component's data — the flag is checked
before every commit; unmount sets the flag.  (The revenue/ratings/review
charts have no such flag; see the counterexample.) -/
theorem cancelled_flag_blocks_stale_commits :
    (∀ (jsNum : String → Option ℚ) (jsDate : String → Option ℤ) (s : McuComp)
        (evs : List McuLoadEv), s.cancelled = true →
      (mcuRun jsNum jsDate evs s).data = s.data) ∧
      (∀ (jsNum : String → Option ℚ) (jsDate : String → Option ℤ) (s : McuComp),
        (mcuHandle jsNum jsDate s .unmount).cancelled = true) := by
  constructor
  · intro jsNum jsDate s evs
    induction evs generalizing s with
    | nil => intro _; rfl
    | cons ev rest ih =>
      intro hc
      have hstale : (mcuHandle jsNum jsDate s ev).data = s.data ∧
          (mcuHandle jsNum jsDate s ev).cancelled = true := by
        cases ev <;> simp [mcuHandle, mcuLoadBoundary, hc]
      show (mcuRun jsNum jsDate rest (mcuHandle jsNum jsDate s ev)).data = s.data
      rw [ih _ hstale.2, hstale.1]
  · intro _ _ _
    rfl

theorem cancelled_flag_blocks_stale_commits_witness :
    (⟨true, ⟨[], []⟩, []⟩ : McuComp).cancelled = true ∧
      (mcuRun (fun _ => none) (fun _ => none)
          [McuLoadEv.complete [⟨"1726", "Iron Man", "1", "2008-05-02", ""⟩]]
          ⟨true, ⟨[], []⟩, []⟩).data
        = (⟨true, ⟨[], []⟩, []⟩ : McuComp).data :=
  ⟨rfl, cancelled_flag_blocks_stale_commits.1 (fun _ => none) (fun _ => none)
    ⟨true, ⟨[], []⟩, []⟩
    [McuLoadEv.complete [⟨"1726", "Iron Man", "1", "2008-05-02", ""⟩]] rfl⟩

/-! ### Review browser (`McuMoviesReviews`, src/unnamed/part_002) -/

/-- A parsed movie of the review browser (part_002 lines 5-11). -/
structure ReviewMovie where
  id : String
  title : String
  releaseYear : Option ℚ
  imdbAverageRating : Option ℚ
  numberVotes : Option ℚ
deriving DecidableEq

/-- A parsed review (part_002 lines 13-23). -/
structure Review where
  movie : String
  imdbId : String
  author : String
  date : String
  reviewRating : Option ℚ
  reviewTitle : String
  review : String
  likes : String
  dislikes : String
deriving DecidableEq

/-- JavaScript `==` between two numbers either of which may be NaN
(NaN compares unequal to everything, including itself). -/
def jsEqNum (a b : Option ℚ) : Bool :=
  match a, b with
  | some v, some w => v == w
  | _, _ => false

/-- Filter `movies.filter((movie) => movie.releaseYear == selectedReviewsYear)`. -/
def moviesFromYear (movies : List ReviewMovie) (y : ℚ) : List ReviewMovie :=
  movies.filter (fun m => jsEqNum m.releaseYear (some y))

/-- The review-filter effect (part_002 lines 69-90): an unselected year
(`null`) yields the empty list; otherwise, for each title of a movie released
in the selected year, append that title's reviews in file order, truncated to
the first 8 when there are more than 8. -/
def filteredReviewsFor (movies : List ReviewMovie) (reviews : List Review)
    (selected : Option ℚ) : List Review :=
  match selected with
  | none => []
  | some y =>
    let movieTitles := (moviesFromYear movies y).map ReviewMovie.title
    movieTitles.foldl (fun acc t =>
      let movieFilteredReviews := reviews.filter (fun r => r.movie == t)
      acc ++ (if movieFilteredReviews.length > 8
        then movieFilteredReviews.take 8 else movieFilteredReviews)) []

theorem foldl_append_eq_flatMap (g : String → List Review) :
    ∀ (ts : List String) (init : List Review),
      ts.foldl (fun acc t => acc ++ g t) init = init ++ ts.flatMap g := by
  intro ts
  induction ts with
  | nil => intro init; simp
  | cons t rest ih =>
    intro init
    rw [List.foldl_cons, ih, List.flatMap_cons, List.append_assoc]

theorem if_take_eight (l : List Review) :
    (if l.length > 8 then l.take 8 else l) = l.take 8 := by
  by_cases h : l.length > 8
  · rw [if_pos h]
  · rw [if_neg h, List.take_of_length_le (by omega)]

theorem filter_flatMap_take_eight (reviews : List Review) (t : String) :
    ∀ ts : List String, ts.Nodup →
      ((ts.flatMap (fun u => (reviews.filter (fun r => r.movie == u)).take 8)).filter
          (fun r => r.movie == t)) =
        (if t ∈ ts then (reviews.filter (fun r => r.movie == t)).take 8 else []) := by
  intro ts
  induction ts with
  | nil => intro _; simp
  | cons u rest ih =>
    intro hnd
    rw [List.flatMap_cons, List.filter_append, ih hnd.of_cons]
    by_cases hut : u = t
    · subst hut
      have hnin : u ∉ rest := (List.nodup_cons.mp hnd).1
      rw [if_neg hnin, if_pos (List.mem_cons_self u rest)]
      rw [List.filter_eq_self.mpr ?_, List.append_nil]
      intro a ha
      have ha' : a ∈ reviews.filter (fun r => r.movie == u) := List.mem_of_mem_take ha
      have hmov : (a.movie == u) = true := (List.mem_filter.mp ha').2
      exact hmov
    · have hfe : ((reviews.filter (fun r => r.movie == u)).take 8).filter
          (fun r => r.movie == t) = [] := by
        rw [List.filter_eq_nil_iff]
        intro a ha
        have ha' : a ∈ reviews.filter (fun r => r.movie == u) := List.mem_of_mem_take ha
        have hmov := (List.mem_filter.mp ha').2
        simp only [beq_iff_eq] at hmov ⊢
        rw [hmov]
        exact hut
      rw [hfe, List.nil_append]
      by_cases hmem : t ∈ rest
      · rw [if_pos hmem, if_pos (List.mem_cons_of_mem u hmem)]
      · have hnotin : t ∉ u :: rest := by
          simp only [List.mem_cons, not_or]
          exact ⟨fun h => hut h.symm, hmem⟩
        rw [if_neg hmem, if_neg hnotin]

/-- C10 (amended). Review-browser limit: with no selected year the filtered
list is empty; for a selected year whose movie TITLES are pairwise distinct,
the filtered list contains, for any title, exactly the first 8 matching
reviews in file order (all of them when fewer) if the title was released that
year and none otherwise — in particular at most 8 reviews per title.  (A
title duplicated in the catalog contributes its reviews once per occurrence;
see the counterexample.) -/
theorem filteredReviews_per_title (movies : List ReviewMovie) (reviews : List Review)
    (y : ℚ) (t : String) :
    filteredReviewsFor movies reviews none = [] ∧
      (((moviesFromYear movies y).map ReviewMovie.title).Nodup →
        ((filteredReviewsFor movies reviews (some y)).filter
            (fun r => r.movie == t) =
          (if t ∈ (moviesFromYear movies y).map ReviewMovie.title
            then (reviews.filter (fun r => r.movie == t)).take 8 else [])) ∧
          (filteredReviewsFor movies reviews (some y)).countP
              (fun r => r.movie == t) ≤ 8) := by
  constructor
  · rfl
  · intro hnd
    have hrw : filteredReviewsFor movies reviews (some y) =
        ((moviesFromYear movies y).map ReviewMovie.title).flatMap
          (fun u => (reviews.filter (fun r => r.movie == u)).take 8) := by
      show ((moviesFromYear movies y).map ReviewMovie.title).foldl _ [] = _
      rw [show (fun (acc : List Review) (t : String) =>
          acc ++ (if (reviews.filter (fun r => r.movie == t)).length > 8
            then (reviews.filter (fun r => r.movie == t)).take 8
            else reviews.filter (fun r => r.movie == t))) =
          (fun acc t => acc ++ (reviews.filter (fun r => r.movie == t)).take 8) by
        funext acc t
        rw [if_take_eight]]
      rw [foldl_append_eq_flatMap, List.nil_append]
    have hfil := filter_flatMap_take_eight reviews t
      ((moviesFromYear movies y).map ReviewMovie.title) hnd
    constructor
    · rw [hrw]
      exact hfil
    · rw [List.countP_eq_length_filter, hrw, hfil]
      by_cases hmem : t ∈ (moviesFromYear movies y).map ReviewMovie.title
      · rw [if_pos hmem, List.length_take]
        omega
      · rw [if_neg hmem]
        simp

theorem filteredReviews_per_title_witness :
    (((moviesFromYear [⟨"1", "A", some 2012, none, none⟩] 2012).map
        ReviewMovie.title).Nodup) ∧
      ((filteredReviewsFor [⟨"1", "A", some 2012, none, none⟩]
          [⟨"A", "", "u1", "", none, "", "", "", ""⟩] (some 2012)).filter
            (fun r => r.movie == "A") =
        (if "A" ∈ (moviesFromYear [⟨"1", "A", some 2012, none, none⟩] 2012).map
            ReviewMovie.title
          then ([⟨"A", "", "u1", "", none, "", "", "", ""⟩].filter
            (fun r => r.movie == "A")).take 8 else [])) ∧
        (filteredReviewsFor [⟨"1", "A", some 2012, none, none⟩]
            [⟨"A", "", "u1", "", none, "", "", "", ""⟩] (some 2012)).countP
            (fun r => r.movie == "A") ≤ 8 :=
  ⟨by decide,
    (filteredReviews_per_title [⟨"1", "A", some 2012, none, none⟩]
      [⟨"A", "", "u1", "", none, "", "", "", ""⟩] 2012 "A").2 (by decide)⟩

/-- Five reviews of the movie titled `A`. -/
def fiveReviewsA : List Review :=
  [⟨"A", "", "u1", "", none, "", "", "", ""⟩,
   ⟨"A", "", "u2", "", none, "", "", "", ""⟩,
   ⟨"A", "", "u3", "", none, "", "", "", ""⟩,
   ⟨"A", "", "u4", "", none, "", "", "", ""⟩,
   ⟨"A", "", "u5", "", none, "", "", "", ""⟩]

/-- The counterexample to C10 as stated: a title that occurs TWICE among the
selected year's catalog rows contributes its reviews once per occurrence, so
the filtered list holds 10 reviews of title `A` — more than the claimed
8-per-title bound. -/
theorem filteredReviews_duplicate_title_exceeds_eight :
    (filteredReviewsFor
        [⟨"1", "A", some 2012, none, none⟩, ⟨"2", "A", some 2012, none, none⟩]
        fiveReviewsA (some 2012)).countP (fun r => r.movie == "A") = 10 ∧
      ¬ ((filteredReviewsFor
          [⟨"1", "A", some 2012, none, none⟩, ⟨"2", "A", some 2012, none, none⟩]
          fiveReviewsA (some 2012)).countP (fun r => r.movie == "A") ≤ 8) := by
  constructor
  · decide
  · decide

end Mcu
